import Mathlib

/- A shallow embedding of src/lib.py (gmaps-image): Web-Mercator projection
   arithmetic, zoom derivation from a ground-sampling-distance goal, bounding
   box squarification, secure inverse rounding, and the tile planning and
   compositing geometry of construct_image.

   The source computes with Python floats.  The embedding works over the exact
   rationals and integers; the transcendental ingredients (the Gudermannian
   y-direction of the projection, the base-2 logarithm inside derive_zoom, and
   the constant earth_circumference = 2*pi*6378137) cannot live in ℚ, so each
   is abstracted as an explicit parameter of the definitions that use it.  All
   surrounding arithmetic — scaling, truncation, floor/ceil, integer division
   and modulus, list construction, slicing — is embedded exactly as written in
   the source.  Python's // and % on integers with a positive divisor agree
   with Int's / (Int.ediv) and % (Int.emod); Python's int() truncates toward
   zero, embedded as ratTrunc below. -/

namespace GMaps

/-- Outcome of a Python computation that can raise AssertionError:
    either a value or the raised assertion. -/
inductive PyResult (α : Type) where
  | ok (a : α) : PyResult α
  | assertErr : PyResult α
deriving DecidableEq

/-- Truncation toward zero of a rational number, as Python's int() applied to
    a float: floor for nonnegative arguments, ceiling for negative ones. -/
def ratTrunc (q : ℚ) : ℤ := if q < 0 then ⌈q⌉ else ⌊q⌋

/-- int(256 * pow(2, zoom)): pixels per axis of the world raster at a zoom
    level (pixelcount in pixelcoord_to_latlon / latlon_to_pixelcoord). -/
def pixelcount (zoom : ℕ) : ℕ := 256 * 2 ^ zoom

/-- latlon_to_webmercator_uniform.  The x formula 0.5 + deg_to_rad(lon)/(2*pi)
    simplifies exactly to 0.5 + lon/360 (the pi cancels); the y formula
    0.5 - gd_inv(deg_to_rad(lat))/(2*pi) is transcendental in lat and is
    abstracted as the parameter mercY. -/
def latlon_to_webmercator_uniform (mercY : ℚ → ℚ) (lat lon : ℚ) : ℚ × ℚ :=
  (mercY lat, 1/2 + lon / 360)

/-- webmercator_uniform_to_latlon.  The longitude direction is exactly
    lon = 360*(x - 0.5); the transcendental latitude direction
    lat = rad_to_deg(gd(2*pi*(0.5 - y))) is abstracted as mercYinv. -/
def webmercator_uniform_to_latlon (mercYinv : ℚ → ℚ) (y x : ℚ) : ℚ × ℚ :=
  (mercYinv y, 360 * (x - 1/2))

/-- pixelcoord_to_latlon: divide by the pixel count and invert the uniform
    projection. -/
def pixelcoord_to_latlon (mercYinv : ℚ → ℚ) (y x : ℚ) (zoom : ℕ) : ℚ × ℚ :=
  webmercator_uniform_to_latlon mercYinv (y / pixelcount zoom) (x / pixelcount zoom)

/-- latlon_to_pixelcoord: scale the uniform coordinates by the pixel count and
    truncate with int().  The row depends only on lat, the column only on
    lon, exactly as in the source. -/
def latlon_to_pixelcoord (mercY : ℚ → ℚ) (lat lon : ℚ) (zoom : ℕ) : ℤ × ℤ :=
  (ratTrunc ((latlon_to_webmercator_uniform mercY lat lon).1 * pixelcount zoom),
   ratTrunc ((latlon_to_webmercator_uniform mercY lat lon).2 * pixelcount zoom))

/-- The nudge step 0.000001 used by pixelcoord_to_latlon_secure. -/
def eps : ℚ := 1/1000000

/-- First while loop of pixelcoord_to_latlon_secure: while the re-projected
    row y2 differs from the goal row y, assert |y2 - y| = 1 and nudge the
    latitude by eps toward the goal.  The source loop is unbounded; fuel makes
    it total: none models running beyond the given fuel, PyResult.assertErr
    models the AssertionError raised when the discrepancy is not exactly one
    pixel. -/
def fixLat (mercY : ℚ → ℚ) : ℕ → ℕ → ℤ → ℚ → ℚ → Option (PyResult ℚ)
  | 0, _, _, _, _ => none
  | fuel + 1, zoom, y, lat, lon =>
    let y2 := (latlon_to_pixelcoord mercY lat lon zoom).1
    if y2 = y then some (PyResult.ok lat)
    else if (y2 - y).natAbs = 1 then
      fixLat mercY fuel zoom y (if y2 < y then lat - eps else lat + eps) lon
    else some PyResult.assertErr

/-- Second while loop of pixelcoord_to_latlon_secure: nudge the longitude
    until the re-projected column x2 equals the goal column x (the latitude
    found by the first loop stays fixed). -/
def fixLon (mercY : ℚ → ℚ) : ℕ → ℕ → ℤ → ℚ → ℚ → Option (PyResult ℚ)
  | 0, _, _, _, _ => none
  | fuel + 1, zoom, x, lat, lon =>
    let x2 := (latlon_to_pixelcoord mercY lat lon zoom).2
    if x2 = x then some (PyResult.ok lon)
    else if (x2 - x).natAbs = 1 then
      fixLon mercY fuel zoom x lat (if x2 < x then lon + eps else lon - eps)
    else some PyResult.assertErr

/-- Sequencing of two Python computations: non-termination and a raised
    AssertionError both propagate. -/
def pyBind {α β : Type} (o : Option (PyResult α)) (f : α → Option (PyResult β)) :
    Option (PyResult β) :=
  match o with
  | none => none
  | some PyResult.assertErr => some PyResult.assertErr
  | some (PyResult.ok a) => f a

/-- pixelcoord_to_latlon_secure: compute the naive inverse, then run the two
    nudge loops.  none models a run that does not leave the loops within the
    fuel; PyResult.assertErr the AssertionError of a discrepancy larger than
    one pixel. -/
def pixelcoord_to_latlon_secure (mercY mercYinv : ℚ → ℚ) (fuel : ℕ)
    (y x : ℤ) (zoom : ℕ) : Option (PyResult (ℚ × ℚ)) :=
  pyBind (fixLat mercY fuel zoom y
      (pixelcoord_to_latlon mercYinv (y : ℚ) (x : ℚ) zoom).1
      (pixelcoord_to_latlon mercYinv (y : ℚ) (x : ℚ) zoom).2) (fun lat =>
    pyBind (fixLon mercY fuel zoom x lat
        (pixelcoord_to_latlon mercYinv (y : ℚ) (x : ℚ) zoom).2) (fun lon =>
      some (PyResult.ok (lat, lon))))

/-- The identity on ℚ, used to instantiate the abstracted transcendental
    projection parameters in concrete evaluations. -/
def idQ : ℚ → ℚ := fun q => q

/-- squarify_coordinates: expand the shorter axis so that width equals
    height.  floor(0.5*diff) and ceil(0.5*diff) on a nonnegative integer diff
    are embedded as diff / 2 and (diff + 1) / 2 (Int./ is floor division for
    the positive divisor 2). -/
def squarify_coordinates (p1 p2 : ℤ × ℤ) : (ℤ × ℤ) × (ℤ × ℤ) :=
  let y1 := p1.1
  let x1 := p1.2
  let y2 := p2.1
  let x2 := p2.2
  let w := x2 - x1
  let h := y2 - y1
  let x1' := if h > w then x1 - (h - w) / 2 else x1
  let x2' := if h > w then x2 + (h - w + 1) / 2 else x2
  let y1' := if w > h then y1 - (w - h) / 2 else y1
  let y2' := if w > h then y2 + (w - h + 1) / 2 else y2
  ((y1', x1'), (y2', x2'))

/-- Length of the Python slice l[a:-b] of a sequence of length n, for
    0 ≤ a, 0 ≤ b: the stop index -b means n - b clamped to [0, n], except
    that b = 0 means stop index 0 (the -0 pitfall); the start index a is
    clamped to [0, n]; a slice never has negative length. -/
def pyNegSliceLen (n a b : ℤ) : ℤ :=
  max 0 ((if b = 0 then 0 else max 0 (min (n - b) n)) - max 0 (min a n))

/-- cut_logo, shape level: axis lengths of image[off:-off, off:-off, :] for an
    image of height h and width w, where off = scale * margin. -/
def cut_logo_shape (h w scale margin : ℤ) : ℤ × ℤ :=
  (pyNegSliceLen h (scale * margin) (scale * margin),
   pyNegSliceLen w (scale * margin) (scale * margin))

/-! ## Secure rounding: round-trip and loop behaviour -/

theorem latlon_to_pixelcoord_fst_lon (mercY : ℚ → ℚ) (lat lon lon' : ℚ) (zoom : ℕ) :
    (latlon_to_pixelcoord mercY lat lon zoom).1 =
      (latlon_to_pixelcoord mercY lat lon' zoom).1 := rfl

theorem pyBind_ok {α β : Type} (o : Option (PyResult α))
    (f : α → Option (PyResult β)) (b : β)
    (h : pyBind o f = some (PyResult.ok b)) :
    ∃ a, o = some (PyResult.ok a) ∧ f a = some (PyResult.ok b) := by
  match o with
  | none => simp [pyBind] at h
  | some PyResult.assertErr => simp [pyBind] at h
  | some (PyResult.ok a) => exact ⟨a, rfl, h⟩

theorem fixLat_ok (mercY : ℚ → ℚ) (zoom : ℕ) (y : ℤ) :
    ∀ (fuel : ℕ) (lat lon lat' : ℚ),
      fixLat mercY fuel zoom y lat lon = some (PyResult.ok lat') →
      (latlon_to_pixelcoord mercY lat' lon zoom).1 = y := by
  intro fuel
  induction fuel with
  | zero => intro lat lon lat' h; simp [fixLat] at h
  | succ n ih =>
    intro lat lon lat' h
    rw [fixLat] at h
    by_cases h1 : (latlon_to_pixelcoord mercY lat lon zoom).1 = y
    · simp only [h1, if_pos rfl] at h
      cases h
      exact h1
    · simp only [if_neg h1] at h
      by_cases h2 : ((latlon_to_pixelcoord mercY lat lon zoom).1 - y).natAbs = 1
      · simp only [if_pos h2] at h
        exact ih _ _ _ h
      · simp [if_neg h2] at h

theorem fixLon_ok (mercY : ℚ → ℚ) (zoom : ℕ) (x : ℤ) :
    ∀ (fuel : ℕ) (lat lon lon' : ℚ),
      fixLon mercY fuel zoom x lat lon = some (PyResult.ok lon') →
      (latlon_to_pixelcoord mercY lat lon' zoom).2 = x := by
  intro fuel
  induction fuel with
  | zero => intro lat lon lon' h; simp [fixLon] at h
  | succ n ih =>
    intro lat lon lon' h
    rw [fixLon] at h
    by_cases h1 : (latlon_to_pixelcoord mercY lat lon zoom).2 = x
    · simp only [h1, if_pos rfl] at h
      cases h
      exact h1
    · simp only [if_neg h1] at h
      by_cases h2 : ((latlon_to_pixelcoord mercY lat lon zoom).2 - x).natAbs = 1
      · simp only [if_pos h2] at h
        exact ih _ _ _ h
      · simp [if_neg h2] at h

/-- C1: for every pixel coordinate (y, x) and zoom on which
    pixelcoord_to_latlon_secure terminates with a value (modelled as any fuel
    for which the embedded loops return PyResult.ok), re-projecting the
    returned geographic point with latlon_to_pixelcoord at the same zoom
    returns exactly (y, x).  Holds for every instantiation of the abstracted
    transcendental projection directions mercY, mercYinv. -/
theorem claimC1_secure_roundtrip (mercY mercYinv : ℚ → ℚ) (fuel : ℕ)
    (y x : ℤ) (zoom : ℕ) (lat lon : ℚ)
    (h : pixelcoord_to_latlon_secure mercY mercYinv fuel y x zoom =
      some (PyResult.ok (lat, lon))) :
    latlon_to_pixelcoord mercY lat lon zoom = (y, x) := by
  unfold pixelcoord_to_latlon_secure at h
  obtain ⟨lat0, hfix, h2⟩ := pyBind_ok _ _ _ h
  obtain ⟨lon0, hlon, h3⟩ := pyBind_ok _ _ _ h2
  simp only [Option.some.injEq, PyResult.ok.injEq, Prod.mk.injEq] at h3
  obtain ⟨rfl, rfl⟩ := h3
  have hy := fixLat_ok mercY zoom y fuel _ _ _ hfix
  have hx := fixLon_ok mercY zoom x fuel _ _ _ hlon
  refine Prod.ext ?_ hx
  rw [latlon_to_pixelcoord_fst_lon mercY _ _
    (pixelcoord_to_latlon mercYinv (y : ℚ) (x : ℚ) zoom).2 zoom]
  exact hy

theorem claimC1_secure_roundtrip_witness :
    pixelcoord_to_latlon_secure idQ idQ 1 3 5 0 =
      some (PyResult.ok (3/256, 360 * (5/256 - 1/2))) ∧
    latlon_to_pixelcoord idQ (3/256) (360 * (5/256 - 1/2)) 0 = (3, 5) := by
  have h : pixelcoord_to_latlon_secure idQ idQ 1 3 5 0 =
      some (PyResult.ok (3/256, 360 * (5/256 - 1/2))) := by
    norm_num [pixelcoord_to_latlon_secure, pyBind, fixLat, fixLon,
      pixelcoord_to_latlon, webmercator_uniform_to_latlon, latlon_to_pixelcoord,
      latlon_to_webmercator_uniform, ratTrunc, pixelcount, idQ]
  exact ⟨h, claimC1_secure_roundtrip idQ idQ 1 3 5 0 _ _ h⟩

/-! ## Squarify -/

/-- C7: squarify_coordinates returns a rectangle of equal width and height,
    obtained by expanding only the shorter axis, splitting the difference as
    floor half on the low side and ceil half on the high side; the result
    contains the original rectangle and never shrinks either axis.  The
    embedding is a total function on ℤ × ℤ pairs with no failure case,
    matching the source's purity and totality. -/
theorem claimC7_squarify (y1 x1 y2 x2 : ℤ) :
    ((squarify_coordinates (y1, x1) (y2, x2)).2.2 -
        (squarify_coordinates (y1, x1) (y2, x2)).1.2 =
      (squarify_coordinates (y1, x1) (y2, x2)).2.1 -
        (squarify_coordinates (y1, x1) (y2, x2)).1.1) ∧
    ((squarify_coordinates (y1, x1) (y2, x2)).1.1 ≤ y1 ∧
      (squarify_coordinates (y1, x1) (y2, x2)).1.2 ≤ x1 ∧
      y2 ≤ (squarify_coordinates (y1, x1) (y2, x2)).2.1 ∧
      x2 ≤ (squarify_coordinates (y1, x1) (y2, x2)).2.2) ∧
    ((squarify_coordinates (y1, x1) (y2, x2)).2.1 -
        (squarify_coordinates (y1, x1) (y2, x2)).1.1 =
      max (y2 - y1) (x2 - x1)) ∧
    (y2 - y1 > x2 - x1 →
      (squarify_coordinates (y1, x1) (y2, x2)).1.1 = y1 ∧
      (squarify_coordinates (y1, x1) (y2, x2)).2.1 = y2 ∧
      x1 - (squarify_coordinates (y1, x1) (y2, x2)).1.2 =
        ((y2 - y1) - (x2 - x1)) / 2 ∧
      (squarify_coordinates (y1, x1) (y2, x2)).2.2 - x2 =
        ((y2 - y1) - (x2 - x1) + 1) / 2) ∧
    (x2 - x1 > y2 - y1 →
      (squarify_coordinates (y1, x1) (y2, x2)).1.2 = x1 ∧
      (squarify_coordinates (y1, x1) (y2, x2)).2.2 = x2 ∧
      y1 - (squarify_coordinates (y1, x1) (y2, x2)).1.1 =
        ((x2 - x1) - (y2 - y1)) / 2 ∧
      (squarify_coordinates (y1, x1) (y2, x2)).2.1 - y2 =
        ((x2 - x1) - (y2 - y1) + 1) / 2) ∧
    (y2 - y1 = x2 - x1 →
      squarify_coordinates (y1, x1) (y2, x2) = ((y1, x1), (y2, x2))) := by
  simp only [squarify_coordinates]
  split_ifs with h1 h2 h2' <;> simp_all <;> omega

/-! ## cut_logo -/

theorem pyNegSliceLen_same_pos (n a : ℤ) (hn : 0 ≤ n) (ha : 0 < a) :
    pyNegSliceLen n a a = max 0 (n - 2 * a) := by
  unfold pyNegSliceLen
  rw [if_neg (by omega)]
  omega

theorem pyNegSliceLen_zero_stop (n a : ℤ) :
    pyNegSliceLen n a 0 = 0 := by
  unfold pyNegSliceLen
  rw [if_pos rfl]
  omega

/-- C10: for a raster of height h and width w and scale ≥ 1, cut_logo with a
    positive margin returns the shape (h - 2*scale*margin, w - 2*scale*margin)
    (clamped to zero when the margin overruns the image, as the Python slice
    does), while margin = 0 makes the slice bound -0 collapse to 0 and yields
    an empty raster, not the unchanged image. -/
theorem claimC10_cut_logo (h w scale margin : ℤ)
    (hh : 0 ≤ h) (hw : 0 ≤ w) (hs : 1 ≤ scale) (hm : 0 ≤ margin) :
    (0 < margin →
      cut_logo_shape h w scale margin =
        (max 0 (h - 2 * (scale * margin)), max 0 (w - 2 * (scale * margin)))) ∧
    (margin = 0 → cut_logo_shape h w scale margin = (0, 0)) := by
  constructor
  · intro hmpos
    have hoff : 0 < scale * margin := mul_pos (by omega) hmpos
    simp only [cut_logo_shape]
    rw [pyNegSliceLen_same_pos h _ hh hoff, pyNegSliceLen_same_pos w _ hw hoff]
  · intro hm0
    subst hm0
    simp only [cut_logo_shape, mul_zero]
    rw [pyNegSliceLen_zero_stop h 0, pyNegSliceLen_zero_stop w 0]

theorem claimC10_cut_logo_witness :
    cut_logo_shape 1192 1192 2 22 = (1104, 1104) ∧
    cut_logo_shape 1192 1192 2 0 = (0, 0) := by
  constructor
  · have := (claimC10_cut_logo 1192 1192 2 22 (by norm_num) (by norm_num)
      (by norm_num) (by norm_num)).1 (by norm_num)
    simpa using this
  · exact (claimC10_cut_logo 1192 1192 2 0 (by norm_num) (by norm_num)
      (by norm_num) le_rfl).2 rfl


/-! ## Resolution solver: compute_gsd and derive_zoom -/

/-- compute_gsd.  w abstracts the transcendental constant earth_circumference
    = 2*pi*6378137 and k abstracts sec(deg_to_rad(lat)), the Mercator scale
    factor of the latitude argument; the remaining arithmetic is the source's
    w / (256 * pow(2, zoom) * k * scale).  zoom ranges over ℤ because
    derive_zoom probes floor(zoom) - 1, which can be negative. -/
def compute_gsd (w k : ℚ) (zoom : ℤ) (scale : ℚ) : ℚ :=
  w / (256 * (2 : ℚ) ^ zoom * k * scale)

/-- derive_zoom.  The float solution zoom = log2(w/(256*goal_gsd*k*scale)) is
    transcendental, so its floor z1 and ceiling z2 are parameters, constrained
    in the theorems by the floor/ceiling characterization.  The source probes
    zoom0 = z1 - 1, zoom1 = z1, zoom2 = z2 in that order and returns the first
    whose GSD meets goal_gsd + deviation; none models the AssertionError
    raised when none does. -/
def derive_zoom (w k scale goal_gsd deviation : ℚ) (z1 z2 : ℤ) : Option ℤ :=
  if compute_gsd w k (z1 - 1) scale ≤ goal_gsd + deviation then some (z1 - 1)
  else if compute_gsd w k z1 scale ≤ goal_gsd + deviation then some z1
  else if compute_gsd w k z2 scale ≤ goal_gsd + deviation then some z2
  else none

/-- The three candidate zooms probed by derive_zoom in evaluation order:
    floor - 1, floor, ceil. -/
def zoom_candidates (z1 z2 : ℤ) : List ℤ :=
  [z1 - 1, z1, z2]

/-- r meets the GSD bound b and no smaller integer zoom does. -/
def minimalSatisfying (w k scale b : ℚ) (r : ℤ) : Prop :=
  compute_gsd w k r scale ≤ b ∧ ∀ z : ℤ, z < r → b < compute_gsd w k z scale

/-- derive_zoom succeeds and returns the first (hence least) candidate
    meeting the bound, which is moreover the minimal integer zoom meeting
    it. -/
def deriveZoomCorrect (w k scale goal_gsd deviation : ℚ) (z1 z2 : ℤ) : Prop :=
  ∃ r, derive_zoom w k scale goal_gsd deviation z1 z2 = some r ∧
    r ∈ zoom_candidates z1 z2 ∧
    (∀ c ∈ zoom_candidates z1 z2,
      compute_gsd w k c scale ≤ goal_gsd + deviation → r ≤ c) ∧
    minimalSatisfying w k scale (goal_gsd + deviation) r

theorem compute_gsd_pos (w k scale : ℚ) (z : ℤ) (hw : 0 < w) (hk : 0 < k)
    (hs : 0 < scale) : 0 < compute_gsd w k z scale := by
  unfold compute_gsd
  positivity

theorem compute_gsd_anti (w k scale : ℚ) (hw : 0 < w) (hk : 0 < k)
    (hs : 0 < scale) {z z' : ℤ} (h : z ≤ z') :
    compute_gsd w k z' scale ≤ compute_gsd w k z scale := by
  unfold compute_gsd
  gcongr
  norm_num

theorem compute_gsd_sub_one (w k scale : ℚ) (hk : k ≠ 0) (hs : scale ≠ 0)
    (z : ℤ) : compute_gsd w k (z - 1) scale = 2 * compute_gsd w k z scale := by
  unfold compute_gsd
  rw [zpow_sub_one₀ (by norm_num : (2:ℚ) ≠ 0)]
  have h2 : (2:ℚ) ^ z ≠ 0 := zpow_ne_zero z (by norm_num)
  field_simp
  ring

theorem goal_le_gsd_floor (w k scale goal_gsd : ℚ) (z1 : ℤ)
    (hk : 0 < k) (hs : 0 < scale) (hg : 0 < goal_gsd)
    (hlo : (2:ℚ) ^ z1 ≤ w / (256 * goal_gsd * k * scale)) :
    goal_gsd ≤ compute_gsd w k z1 scale := by
  rw [le_div_iff₀ (by positivity)] at hlo
  unfold compute_gsd
  rw [le_div_iff₀ (by positivity)]
  calc goal_gsd * (256 * (2:ℚ) ^ z1 * k * scale)
      = (2:ℚ) ^ z1 * (256 * goal_gsd * k * scale) := by ring
    _ ≤ w := hlo

theorem gsd_ceil_lt_goal (w k scale goal_gsd : ℚ) (z1 : ℤ)
    (hk : 0 < k) (hs : 0 < scale) (hg : 0 < goal_gsd)
    (hhi : w / (256 * goal_gsd * k * scale) < (2:ℚ) ^ (z1 + 1)) :
    compute_gsd w k (z1 + 1) scale < goal_gsd := by
  rw [div_lt_iff₀ (by positivity)] at hhi
  unfold compute_gsd
  rw [div_lt_iff₀ (by positivity)]
  calc w < (2:ℚ) ^ (z1 + 1) * (256 * goal_gsd * k * scale) := hhi
    _ = goal_gsd * (256 * (2:ℚ) ^ (z1 + 1) * k * scale) := by ring

theorem gsd_floor_eq_goal (w k scale goal_gsd : ℚ) (z1 : ℤ)
    (hk : 0 < k) (hs : 0 < scale) (hg : 0 < goal_gsd)
    (heq : w / (256 * goal_gsd * k * scale) = (2:ℚ) ^ z1) :
    compute_gsd w k z1 scale = goal_gsd := by
  rw [div_eq_iff (by positivity : (256 * goal_gsd * k * scale : ℚ) ≠ 0)] at heq
  unfold compute_gsd
  rw [div_eq_iff (by positivity : (256 * (2:ℚ) ^ z1 * k * scale : ℚ) ≠ 0)]
  rw [heq]
  ring

/-- C2 (amended): derive_zoom evaluates the three candidates floor(z)-1,
    floor(z), ceil(z) in increasing order and returns the first — hence
    smallest — whose compute_gsd value meets goal_gsd + deviation (the
    AssertionError branch when none does is modelled by none and is never
    reached under the floor/ceil characterization); moreover, provided
    deviation < 3 * goal_gsd, the returned zoom is the minimal integer zoom
    meeting the bound over all of ℤ.  Without that proviso, global minimality
    fails: see the counterexample.  The hypotheses on z1 and z2 say that they
    are the floor and the ceiling of the real solution
    log2(w/(256*goal_gsd*k*scale)). -/
theorem claimC2_derive_zoom (w k scale goal_gsd deviation : ℚ) (z1 z2 : ℤ)
    (hw : 0 < w) (hk : 0 < k) (hs : 0 < scale) (hg : 0 < goal_gsd)
    (hd0 : 0 ≤ deviation) (hd3 : deviation < 3 * goal_gsd)
    (hlo : (2:ℚ) ^ z1 ≤ w / (256 * goal_gsd * k * scale))
    (hz2 : z2 = z1 ∨ z2 = z1 + 1)
    (hceq : z2 = z1 → w / (256 * goal_gsd * k * scale) = (2:ℚ) ^ z1)
    (hclt : z2 = z1 + 1 →
      w / (256 * goal_gsd * k * scale) < (2:ℚ) ^ (z1 + 1)) :
    deriveZoomCorrect w k scale goal_gsd deviation z1 z2 := by
  have hg1 : goal_gsd ≤ compute_gsd w k z1 scale :=
    goal_le_gsd_floor w k scale goal_gsd z1 hk hs hg hlo
  have hg0 : compute_gsd w k (z1 - 1) scale = 2 * compute_gsd w k z1 scale :=
    compute_gsd_sub_one w k scale hk.ne' hs.ne' z1
  have hgm : compute_gsd w k (z1 - 2) scale =
      2 * compute_gsd w k (z1 - 1) scale := by
    have h := compute_gsd_sub_one w k scale hk.ne' hs.ne' (z1 - 1)
    have e : z1 - 1 - 1 = z1 - 2 := by ring
    rw [e] at h
    exact h
  have hz2g : compute_gsd w k z2 scale ≤ goal_gsd := by
    rcases hz2 with h | h
    · rw [h, gsd_floor_eq_goal w k scale goal_gsd z1 hk hs hg (hceq h)]
    · rw [h]
      exact (gsd_ceil_lt_goal w k scale goal_gsd z1 hk hs hg (hclt h)).le
  unfold deriveZoomCorrect derive_zoom zoom_candidates minimalSatisfying
  by_cases h0 : compute_gsd w k (z1 - 1) scale ≤ goal_gsd + deviation
  · refine ⟨z1 - 1, by rw [if_pos h0], by simp, ?_, h0, ?_⟩
    · intro c hc _
      simp only [List.mem_cons, List.not_mem_nil, or_false] at hc
      rcases hc with rfl | rfl | rfl <;> omega
    · intro z hz
      have hza : z ≤ z1 - 2 := by omega
      have hmono := compute_gsd_anti w k scale hw hk hs hza
      have h4 : 4 * goal_gsd ≤ compute_gsd w k (z1 - 2) scale := by
        rw [hgm, hg0]
        linarith
      linarith
  · by_cases h1 : compute_gsd w k z1 scale ≤ goal_gsd + deviation
    · refine ⟨z1, by rw [if_neg h0, if_pos h1], by simp, ?_, h1, ?_⟩
      · intro c hc hcb
        simp only [List.mem_cons, List.not_mem_nil, or_false] at hc
        rcases hc with rfl | rfl | rfl
        · exact absurd hcb h0
        · exact le_rfl
        · omega
      · intro z hz
        have hza : z ≤ z1 - 1 := by omega
        have hmono := compute_gsd_anti w k scale hw hk hs hza
        linarith [not_le.mp h0]
    · have hz1e : z2 = z1 + 1 := by
        rcases hz2 with h | h
        · exfalso
          apply h1
          rw [← h]
          linarith
        · exact h
      have h2 : compute_gsd w k z2 scale ≤ goal_gsd + deviation := by linarith
      refine ⟨z2, by rw [if_neg h0, if_neg h1, if_pos h2], by simp, ?_, h2, ?_⟩
      · intro c hc hcb
        simp only [List.mem_cons, List.not_mem_nil, or_false] at hc
        rcases hc with rfl | rfl | rfl
        · exact absurd hcb h0
        · exact absurd hcb h1
        · exact le_rfl
      · intro z hz
        have hza : z ≤ z1 := by omega
        have hmono := compute_gsd_anti w k scale hw hk hs hza
        linarith [not_le.mp h1]

theorem claimC2_derive_zoom_witness :
    (0:ℚ) < 256 ∧ deriveZoomCorrect 256 1 1 1 0 0 0 := by
  refine ⟨by norm_num,
    claimC2_derive_zoom 256 1 1 1 0 0 0 (by norm_num) (by norm_num)
      (by norm_num) (by norm_num) le_rfl (by norm_num) (by norm_num)
      (Or.inl rfl) (fun _ => by norm_num) (fun h => by cases h)⟩

/-- C2 as frozen is refuted: the claim asserts that the returned value is the
    minimal integer zoom whose GSD meets goal_gsd + deviation, for every
    deviation ≥ 0.  Take k = 1 (latitude 0: sec 0 = 1 exactly), scale = 1,
    goal_gsd = 100, deviation = 10^6, and w = 40075016.6856, a rational within
    10^-4 of the true earth circumference 2*pi*6378137; the last two conjuncts
    verify that the real solution log2(w/(256*100)) lies strictly between 10
    and 11, so z1 = 10, z2 = 11 is the faithful instantiation of floor and
    ceil.  derive_zoom returns floor - 1 = 9, yet zoom 0 already meets the
    bound: the returned zoom is not the minimal integer satisfying it. -/
theorem claimC2_derive_zoom_counterexample :
    derive_zoom (400750166856/10000) 1 1 100 1000000 10 11 = some 9 ∧
    compute_gsd (400750166856/10000) 1 0 1 ≤ 100 + 1000000 ∧
    (0:ℤ) < 9 ∧
    (2:ℚ) ^ (10:ℤ) ≤ (400750166856/10000) / (256 * 100 * 1 * 1) ∧
    (400750166856/10000) / (256 * 100 * 1 * 1) < (2:ℚ) ^ (11:ℤ) := by
  have h9 : compute_gsd (400750166856/10000) 1 (10 - 1 : ℤ) 1 ≤
      100 + 1000000 := by
    unfold compute_gsd
    norm_num
  refine ⟨?_, ?_, by norm_num, ?_, ?_⟩
  · unfold derive_zoom
    rw [if_pos h9]
    norm_num
  · unfold compute_gsd
    norm_num
  · norm_num
  · norm_num

/-! ## Tile grid planner -/

/-- Tile index of a pixel along one axis: pixel // tile_step (Python floor
    division; / on ℤ is floor division for a positive divisor). -/
def tileOf (ts p : ℤ) : ℤ := p / ts

/-- The tile comprehension of construct_image:
    [(j, i) for j in range(t1[0], t2[0]+1) for i in range(t1[1], t2[1]+1)],
    row-major (row ascending, then column ascending). -/
def tiles (ts y1 x1 y2 x2 : ℤ) : List (ℤ × ℤ) :=
  (List.range (tileOf ts y2 + 1 - tileOf ts y1).toNat).flatMap (fun (dj : ℕ) =>
    (List.range (tileOf ts x2 + 1 - tileOf ts x1).toNat).map (fun (di : ℕ) =>
      (tileOf ts y1 + ((dj : ℤ)), tileOf ts x1 + ((di : ℤ)))))

/-- tile_to_pixel: int((t + 0.5) * step), the fetch-center pixel of a tile
    index along one axis. -/
def tile_to_pixel (ts t : ℤ) : ℤ := ratTrunc (((t : ℚ) + 1/2) * (ts : ℚ))

theorem range_flatMap_map_length {α : Type} (f : ℕ → ℕ → α) (m n : ℕ) :
    ((List.range m).flatMap (fun j => (List.range n).map (f j))).length = m * n := by
  induction m with
  | zero => simp
  | succ p ih =>
    rw [List.range_succ, List.flatMap_append (List.range p) [p]]
    rw [List.length_append, ih]
    simp only [List.flatMap_cons, List.flatMap_nil, List.append_nil,
      List.length_map, List.length_range]
    ring

theorem range_flatMap_map_getElem {α : Type} (f : ℕ → ℕ → α) (m n a b : ℕ)
    (ha : a < m) (hb : b < n) :
    ((List.range m).flatMap (fun j => (List.range n).map (f j)))[a * n + b]? =
      some (f a b) := by
  induction m with
  | zero => omega
  | succ p ih =>
    rw [List.range_succ, List.flatMap_append (List.range p) [p]]
    rcases Nat.lt_or_ge a p with h | h
    · rw [List.getElem?_append_left]
      · exact ih h
      · rw [range_flatMap_map_length]
        calc a * n + b < a * n + n := by omega
          _ = (a + 1) * n := by ring
          _ ≤ p * n := Nat.mul_le_mul_right n (by omega)
    · have hap : a = p := by omega
      subst hap
      rw [List.getElem?_append_right]
      · rw [range_flatMap_map_length, Nat.add_sub_cancel_left]
        simp only [List.flatMap_cons, List.flatMap_nil, List.append_nil]
        rw [List.getElem?_map, List.getElem?_range hb]
        rfl
      · rw [range_flatMap_map_length]
        exact Nat.le_add_right _ _
theorem tileOf_mono (ts : ℤ) (hts : 0 < ts) {p q : ℤ} (h : p ≤ q) :
    tileOf ts p ≤ tileOf ts q := Int.ediv_le_ediv hts h

theorem tileOf_footprint (ts : ℤ) (hts : 0 < ts) (p : ℤ) :
    tileOf ts p * ts ≤ p ∧ p < (tileOf ts p + 1) * ts := by
  unfold tileOf
  have h1 := Int.ediv_add_emod p ts
  have h2 := Int.emod_nonneg p hts.ne'
  have h3 := Int.emod_lt_of_pos p hts
  constructor
  · rw [mul_comm]
    linarith
  · have he : (p / ts + 1) * ts = ts * (p / ts) + ts := by ring
    rw [he]
    linarith

theorem tileOf_unique (ts : ℤ) (hts : 0 < ts) (t p : ℤ)
    (h1 : t * ts ≤ p) (h2 : p < (t + 1) * ts) : tileOf ts p = t := by
  unfold tileOf
  have hle : t ≤ p / ts := (Int.le_ediv_iff_mul_le hts).mpr h1
  have hlt : p / ts < t + 1 := (Int.ediv_lt_iff_lt_mul hts).mpr h2
  exact le_antisymm (Int.lt_add_one_iff.mp hlt) hle

theorem exists_pixel_with_tile (ts : ℤ) (hts : 0 < ts) (y1 y2 j : ℤ)
    (hy : y1 ≤ y2) (hj1 : tileOf ts y1 ≤ j) (hj2 : j ≤ tileOf ts y2) :
    ∃ p, y1 ≤ p ∧ p ≤ y2 ∧ tileOf ts p = j := by
  refine ⟨max y1 (j * ts), le_max_left _ _, ?_, ?_⟩
  · refine max_le hy ?_
    exact (Int.le_ediv_iff_mul_le hts).mp hj2
  · rcases le_or_lt y1 (j * ts) with h | h
    · rw [max_eq_right h]
      unfold tileOf
      exact Int.mul_ediv_cancel j hts.ne'
    · rw [max_eq_left h.le]
      have hle : j ≤ tileOf ts y1 := (Int.le_ediv_iff_mul_le hts).mpr h.le
      exact le_antisymm hle hj1 ▸ rfl

theorem mem_tiles_iff (ts y1 x1 y2 x2 j i : ℤ) :
    (j, i) ∈ tiles ts y1 x1 y2 x2 ↔
      tileOf ts y1 ≤ j ∧ j ≤ tileOf ts y2 ∧
      tileOf ts x1 ≤ i ∧ i ≤ tileOf ts x2 := by
  unfold tiles
  rw [List.mem_flatMap]
  constructor
  · rintro ⟨dj, hdj, hmem⟩
    rw [List.mem_range] at hdj
    rw [List.mem_map] at hmem
    obtain ⟨di, hdi, heq⟩ := hmem
    rw [List.mem_range] at hdi
    have h1 : tileOf ts y1 + (dj : ℤ) = j := congrArg Prod.fst heq
    have h2 : tileOf ts x1 + (di : ℤ) = i := congrArg Prod.snd heq
    omega
  · intro hb
    refine ⟨(j - tileOf ts y1).toNat, ?_, ?_⟩
    · rw [List.mem_range]
      omega
    · rw [List.mem_map]
      refine ⟨(i - tileOf ts x1).toNat, ?_, ?_⟩
      · rw [List.mem_range]
        omega
      · have e1 : tileOf ts y1 + ((j - tileOf ts y1).toNat : ℤ) = j := by omega
        have e2 : tileOf ts x1 + ((i - tileOf ts x1).toNat : ℤ) = i := by omega
        rw [e1, e2]

theorem tile_to_pixel_eq (ts t : ℤ) (hts : 0 < ts) (ht : 0 ≤ t) :
    tile_to_pixel ts t = t * ts + ts / 2 := by
  unfold tile_to_pixel ratTrunc
  have htq : (0:ℚ) ≤ (t : ℚ) := by exact_mod_cast ht
  have htsq : (0:ℚ) ≤ (ts : ℚ) := by exact_mod_cast hts.le
  have hnn : (0:ℚ) ≤ ((t : ℚ) + 1/2) * (ts : ℚ) := by
    apply mul_nonneg
    · linarith
    · exact htsq
  rw [if_neg (not_lt.mpr hnn)]
  have he : ((t : ℚ) + 1/2) * (ts : ℚ) = ((t * ts : ℤ) : ℚ) + (ts : ℚ) / ((2:ℕ) : ℚ) := by
    push_cast
    ring
  rw [he, Int.floor_int_add, Rat.floor_intCast_div_natCast ts 2]
  norm_num

/-- The planner contract stated by C6 for tile step ts and pixel corners
    (y1, x1), (y2, x2): the tile list is exactly the inclusive rectangle
    between the corner tiles pixel // ts (membership), enumerated in row-major
    order (length and indexing formula), its footprints cover every pixel of
    the box, every list of tiles whose footprints cover the box contains all
    of it (minimality as a covering set, rectangular or not), and the fetch
    center int((t + 0.5) * ts) equals t * ts + ts / 2 on nonnegative
    indices. -/
def plannerSpec (ts y1 x1 y2 x2 : ℤ) : Prop :=
  (∀ j i : ℤ, ((j, i) ∈ tiles ts y1 x1 y2 x2 ↔
      tileOf ts y1 ≤ j ∧ j ≤ tileOf ts y2 ∧
      tileOf ts x1 ≤ i ∧ i ≤ tileOf ts x2)) ∧
  (tiles ts y1 x1 y2 x2).length =
    (tileOf ts y2 + 1 - tileOf ts y1).toNat *
      (tileOf ts x2 + 1 - tileOf ts x1).toNat ∧
  (∀ a b : ℕ, a < (tileOf ts y2 + 1 - tileOf ts y1).toNat →
    b < (tileOf ts x2 + 1 - tileOf ts x1).toNat →
    (tiles ts y1 x1 y2 x2)[a * (tileOf ts x2 + 1 - tileOf ts x1).toNat + b]? =
      some (tileOf ts y1 + (a : ℤ), tileOf ts x1 + (b : ℤ))) ∧
  (∀ p q : ℤ, y1 ≤ p → p ≤ y2 → x1 ≤ q → q ≤ x2 →
    ∃ t ∈ tiles ts y1 x1 y2 x2,
      t.1 * ts ≤ p ∧ p < (t.1 + 1) * ts ∧ t.2 * ts ≤ q ∧ q < (t.2 + 1) * ts) ∧
  (∀ S : List (ℤ × ℤ),
    (∀ p q : ℤ, y1 ≤ p → p ≤ y2 → x1 ≤ q → q ≤ x2 →
      ∃ t ∈ S, t.1 * ts ≤ p ∧ p < (t.1 + 1) * ts ∧
        t.2 * ts ≤ q ∧ q < (t.2 + 1) * ts) →
    ∀ t ∈ tiles ts y1 x1 y2 x2, t ∈ S) ∧
  (∀ t : ℤ, 0 ≤ t → tile_to_pixel ts t = t * ts + ts / 2)

/-- C6: for every bounding box with ordered corners and every positive tile
    step, the planner takes each corner's tile as floor(pixel / tile_step)
    per axis and enumerates the inclusive rectangle between the corner tiles
    in row-major order; the enumerated footprints cover every pixel of the
    box; the enumeration is minimal among covering tile sets; and the fetch
    center of a (nonnegative) tile index is truncate((index + 0.5) *
    tile_step) = index * tile_step + tile_step / 2 per axis. -/
theorem claimC6_planner (ts y1 x1 y2 x2 : ℤ) (hts : 0 < ts)
    (hy : y1 ≤ y2) (hx : x1 ≤ x2) : plannerSpec ts y1 x1 y2 x2 := by
  refine ⟨mem_tiles_iff ts y1 x1 y2 x2, ?_, ?_, ?_, ?_, ?_⟩
  · unfold tiles
    exact range_flatMap_map_length _ _ _
  · intro a b haa hbb
    unfold tiles
    exact range_flatMap_map_getElem _ _ _ a b haa hbb
  · intro p q hp1 hp2 hq1 hq2
    refine ⟨(tileOf ts p, tileOf ts q), ?_, ?_⟩
    · rw [mem_tiles_iff]
      exact ⟨tileOf_mono ts hts hp1, tileOf_mono ts hts hp2,
        tileOf_mono ts hts hq1, tileOf_mono ts hts hq2⟩
    · obtain ⟨hA, hB⟩ := tileOf_footprint ts hts p
      obtain ⟨hC, hD⟩ := tileOf_footprint ts hts q
      exact ⟨hA, hB, hC, hD⟩
  · intro S hcov t ht
    rw [mem_tiles_iff] at ht
    obtain ⟨h1, h2, h3, h4⟩ := ht
    obtain ⟨p, hp1, hp2, hpt⟩ := exists_pixel_with_tile ts hts y1 y2 t.1 hy h1 h2
    obtain ⟨q, hq1, hq2, hqt⟩ := exists_pixel_with_tile ts hts x1 x2 t.2 hx h3 h4
    obtain ⟨s, hs, hsp1, hsp2, hsq1, hsq2⟩ := hcov p q hp1 hp2 hq1 hq2
    have e1 : s.1 = t.1 := (tileOf_unique ts hts s.1 p hsp1 hsp2).symm.trans hpt
    have e2 : s.2 = t.2 := (tileOf_unique ts hts s.2 q hsq1 hsq2).symm.trans hqt
    have hst : s = t := Prod.ext e1 e2
    rw [← hst]
    exact hs
  · intro t ht
    exact tile_to_pixel_eq ts t hts ht

theorem claimC6_planner_witness :
    (0:ℤ) < 10 ∧ plannerSpec 10 0 0 15 25 :=
  ⟨by norm_num, claimC6_planner 10 0 0 15 25 (by norm_num) (by norm_num)
    (by norm_num)⟩
/-! ## construct_image: compositor geometry -/

/-- step = max_resolution - 2 * margin = 640 - 2 * 22, the tile step of
    construct_image. -/
def tstep : ℤ := 640 - 2 * 22

theorem tstep_eq : tstep = 596 := by norm_num [tstep]

/-- height = len(range(t1[0], t2[0] + 1)), the tile-row count of the grid. -/
def heightTiles (y1 y2 : ℤ) : ℕ := (tileOf tstep y2 + 1 - tileOf tstep y1).toNat

/-- width = len(range(t1[1], t2[1] + 1)), the tile-column count of the grid. -/
def widthTiles (x1 x2 : ℤ) : ℕ := (tileOf tstep x2 + 1 - tileOf tstep x1).toNat

/-- Rows of the allocated composite raster
    np.ndarray((height*size, width*size, 3)), size = scale * step. -/
def allocH (y1 y2 scale : ℤ) : ℤ := (heightTiles y1 y2 : ℤ) * (scale * tstep)

/-- Columns of the allocated composite raster. -/
def allocW (x1 x2 scale : ℤ) : ℤ := (widthTiles x1 x2 : ℤ) * (scale * tstep)

/-- Rows of the raster construct_image returns: the allocation when
    full_tiles, else cropped by superimage[off1[0]:-off2[0], ...] with
    off1 = scale*(y1 % step) and off2 = scale*(step - y2 % step). -/
def croppedH (y1 y2 scale : ℤ) : Bool → ℤ
  | true => allocH y1 y2 scale
  | false => pyNegSliceLen (allocH y1 y2 scale) (scale * (y1 % tstep))
      (scale * (tstep - y2 % tstep))

/-- Columns of the raster construct_image returns. -/
def croppedW (x1 x2 scale : ℤ) : Bool → ℤ
  | true => allocW x1 x2 scale
  | false => pyNegSliceLen (allocW x1 x2 scale) (scale * (x1 % tstep))
      (scale * (tstep - x2 % tstep))

/-- The coordinate-map fill loops of construct_image:
    for y in range(scale*(y2 - y1)): for x in range(scale*(x2 - x1)):
    pixelcoordinates[y, x] = pixelcoord_to_latlon_secure(scale*y1 + y,
    scale*x1 + x, zoom + (scale == 2)).  Entries outside the loop ranges keep
    np.ndarray allocation garbage, modelled as none; a filled entry carries
    the fuel-modelled outcome of the secure rounding. -/
def coordMapModel (mercY mercYinv : ℚ → ℚ) (fuel : ℕ) (y1 x1 y2 x2 : ℤ)
    (zoom : ℕ) (scale : ℤ) (y x : ℤ) : Option (Option (PyResult (ℚ × ℚ))) :=
  if 0 ≤ y ∧ y < scale * (y2 - y1) ∧ 0 ≤ x ∧ x < scale * (x2 - x1) then
    some (pixelcoord_to_latlon_secure mercY mercYinv fuel
      (scale * y1 + y) (scale * x1 + x) (zoom + (if scale = 2 then 1 else 0)))
  else none

/-- The shape-and-coordinate outcome of construct_image: the returned raster
    dimensions, the coordinate-map buffer dimensions and its entries. -/
structure CImage where
  imgH : ℤ
  imgW : ℤ
  mapH : ℤ
  mapW : ℤ
  coordMap : ℤ → ℤ → Option (Option (PyResult (ℚ × ℚ)))

/-- The optional squarification at the head of construct_image. -/
def normalizeCorners : Bool → ℤ × ℤ → ℤ × ℤ → (ℤ × ℤ) × (ℤ × ℤ)
  | true, p1, p2 => squarify_coordinates p1 p2
  | false, p1, p2 => (p1, p2)

/-- The body of construct_image after corner normalization: allocation of
    height*size by width*size (placement of the fetched tiles only affects
    the out-of-scope pixel contents), cropping unless full_tiles, the shape
    assertions — which compare the returned shape against the constant 88 —
    and the coordinate-map buffer, allocated with superimage.shape and filled
    by the per-pixel loops.  none models the AssertionError raised when a
    % 88 shape check fails. -/
def construct_image_core (mercY mercYinv : ℚ → ℚ) (fuel : ℕ)
    (y1 x1 y2 x2 : ℤ) (zoom : ℕ) (scale : ℤ) (full_tiles : Bool) :
    Option CImage :=
  if croppedH y1 y2 scale full_tiles % 88 = 0 ∧
      croppedW x1 x2 scale full_tiles % 88 = 0 then
    some { imgH := croppedH y1 y2 scale full_tiles,
           imgW := croppedW x1 x2 scale full_tiles,
           mapH := croppedH y1 y2 scale full_tiles,
           mapW := croppedW x1 x2 scale full_tiles,
           coordMap := coordMapModel mercY mercYinv fuel y1 x1 y2 x2 zoom scale }
  else none

/-- construct_image at the geometry level, on the pixel corners that the
    source obtains from the latlon corners with latlon_to_pixelcoord. -/
def construct_image (mercY mercYinv : ℚ → ℚ) (fuel : ℕ)
    (py1 px1 py2 px2 : ℤ) (zoom : ℕ) (scale : ℤ)
    (full_tiles square : Bool) : Option CImage :=
  construct_image_core mercY mercYinv fuel
    (normalizeCorners square (py1, px1) (py2, px2)).1.1
    (normalizeCorners square (py1, px1) (py2, px2)).1.2
    (normalizeCorners square (py1, px1) (py2, px2)).2.1
    (normalizeCorners square (py1, px1) (py2, px2)).2.2 zoom scale full_tiles

theorem pyNegSliceLen_exact (n a b : ℤ) (ha : 0 ≤ a) (hb : 0 < b)
    (hab : a + b ≤ n) : pyNegSliceLen n a b = n - a - b := by
  unfold pyNegSliceLen
  rw [if_neg (by omega)]
  omega

/-- In cropped mode the returned height is exactly scale * (y2 - y1): the
    crop offsets cancel the padding the tile grid adds around the box. -/
theorem croppedH_eq (y1 y2 scale : ℤ) (hsc : scale = 1 ∨ scale = 2)
    (hy : y1 ≤ y2) : croppedH y1 y2 scale false = scale * (y2 - y1) := by
  rcases hsc with rfl | rfl <;>
  · unfold croppedH pyNegSliceLen allocH heightTiles tileOf
    simp only [tstep_eq]
    rw [if_neg (by omega)]
    omega

theorem croppedW_eq (x1 x2 scale : ℤ) (hsc : scale = 1 ∨ scale = 2)
    (hx : x1 ≤ x2) : croppedW x1 x2 scale false = scale * (x2 - x1) := by
  rcases hsc with rfl | rfl <;>
  · unfold croppedW pyNegSliceLen allocW widthTiles tileOf
    simp only [tstep_eq]
    rw [if_neg (by omega)]
    omega

/-- C3: in construct_image (cropped mode, squarification off), the coordinate
    map buffer has exactly the height and width of the returned raster, and
    every output pixel (y, x) of that raster is assigned the value
    pixelcoord_to_latlon_secure(scale*y1 + y, scale*x1 + x, zoom') with
    zoom' = zoom + 1 when scale = 2 and zoom' = zoom otherwise, (y1, x1)
    being the upper-left corner pixel of the requested box.  The fill loops
    range over scale*(y2-y1) rows and scale*(x2-x1) columns, which the
    theorem shows to be exactly the cropped raster's dimensions, so no output
    pixel is left unassigned. -/
theorem claimC3_coordinate_map (mercY mercYinv : ℚ → ℚ) (fuel : ℕ)
    (py1 px1 py2 px2 : ℤ) (zoom : ℕ) (scale : ℤ)
    (hsc : scale = 1 ∨ scale = 2) (hy : py1 ≤ py2) (hx : px1 ≤ px2)
    (r : CImage)
    (hr : construct_image mercY mercYinv fuel py1 px1 py2 px2 zoom scale
      false false = some r) :
    r.mapH = r.imgH ∧ r.mapW = r.imgW ∧
    r.imgH = scale * (py2 - py1) ∧ r.imgW = scale * (px2 - px1) ∧
    (∀ y x : ℤ, 0 ≤ y → y < r.imgH → 0 ≤ x → x < r.imgW →
      r.coordMap y x = some (pixelcoord_to_latlon_secure mercY mercYinv fuel
        (scale * py1 + y) (scale * px1 + x)
        (zoom + (if scale = 2 then 1 else 0)))) := by
  unfold construct_image normalizeCorners construct_image_core at hr
  dsimp only at hr
  by_cases hcond : croppedH py1 py2 scale false % 88 = 0 ∧
      croppedW px1 px2 scale false % 88 = 0
  · rw [if_pos hcond] at hr
    obtain rfl := Option.some_inj.mp hr
    refine ⟨rfl, rfl, croppedH_eq py1 py2 scale hsc hy,
      croppedW_eq px1 px2 scale hsc hx, ?_⟩
    intro y x h1 h2 h3 h4
    have h2' : y < scale * (py2 - py1) := by
      have hh : y < croppedH py1 py2 scale false := h2
      rwa [croppedH_eq py1 py2 scale hsc hy] at hh
    have h4' : x < scale * (px2 - px1) := by
      have hh : x < croppedW px1 px2 scale false := h4
      rwa [croppedW_eq px1 px2 scale hsc hx] at hh
    show coordMapModel mercY mercYinv fuel py1 px1 py2 px2 zoom scale y x = _
    unfold coordMapModel
    rw [if_pos ⟨h1, h2', h3, h4'⟩]
  · rw [if_neg hcond] at hr
    cases hr

theorem claimC3_coordinate_map_witness :
    construct_image idQ idQ 1 0 0 88 88 0 1 false false =
      some (CImage.mk 88 88 88 88 (coordMapModel idQ idQ 1 0 0 88 88 0 1)) ∧
    (CImage.mk 88 88 88 88 (coordMapModel idQ idQ 1 0 0 88 88 0 1)).coordMap 0 0 =
      some (pixelcoord_to_latlon_secure idQ idQ 1 0 0 0) := by
  have hr : construct_image idQ idQ 1 0 0 88 88 0 1 false false =
      some (CImage.mk 88 88 88 88 (coordMapModel idQ idQ 1 0 0 88 88 0 1)) := by
    rfl
  refine ⟨hr, ?_⟩
  have h := claimC3_coordinate_map idQ idQ 1 0 0 88 88 0 1 (Or.inl rfl)
    (by norm_num) (by norm_num) _ hr
  have h5 := h.2.2.2.2 0 0 le_rfl (show (0:ℤ) < 88 by norm_num) le_rfl
    (show (0:ℤ) < 88 by norm_num)
  simpa using h5

/-- C4 (amended): before returning, construct_image checks that both axes of
    the raster it is about to return are divisible by the constant 88 — not
    by the scaled per-tile footprint scale * 596 named by the claim — and a
    violation of that mod-88 check fails loudly (assertion, modelled by
    returning no result) rather than silently truncating: the call returns a
    value exactly when both returned axes are multiples of 88. -/
theorem claimC4_shape_check (mercY mercYinv : ℚ → ℚ) (fuel : ℕ)
    (py1 px1 py2 px2 : ℤ) (zoom : ℕ) (scale : ℤ) (full_tiles : Bool) :
    (construct_image mercY mercYinv fuel py1 px1 py2 px2 zoom scale
        full_tiles false).isSome = true ↔
      (croppedH py1 py2 scale full_tiles % 88 = 0 ∧
       croppedW px1 px2 scale full_tiles % 88 = 0) := by
  unfold construct_image normalizeCorners construct_image_core
  dsimp only
  by_cases h : croppedH py1 py2 scale full_tiles % 88 = 0 ∧
      croppedW px1 px2 scale full_tiles % 88 = 0
  · rw [if_pos h]
    simp [h]
  · rw [if_neg h]
    constructor
    · intro hf
      simp at hf
    · intro hc
      exact absurd hc h

/-- C4 as frozen is refuted: with corners (0,0)-(88,88), scale 1 and cropping
    on, construct_image returns a raster of 88 rows — the mod-88 assertions
    pass — although 88 is not a multiple of the scaled per-tile footprint
    1 * 596; so the axes of a successfully returned composite need not be
    multiples of the tile footprint, and the alignment the code checks is
    against the constant 88 instead. -/
theorem claimC4_shape_check_counterexample :
    (construct_image idQ idQ 1 0 0 88 88 0 1 false false).map CImage.imgH =
      some 88 ∧ ¬ ((1 * 596 : ℤ) ∣ 88) := by
  constructor
  · rfl
  · omega

/-- C5: construct_image allocates the composite raster with exactly
    height_tiles*scale*tile_step rows and width_tiles*scale*tile_step columns
    (tile counts = floor quotients of the corner pixels by tile_step = 596,
    inclusive), and when full_tiles is not requested it crops
    scale*(y1 % step) rows and scale*(x1 % step) columns at the upper-left
    and scale*(step - y2 % step) rows and scale*(step - x2 % step) columns at
    the lower-right; with full_tiles the allocation is returned uncropped. -/
theorem claimC5_alloc_and_crop (y1 x1 y2 x2 scale : ℤ)
    (hsc : scale = 1 ∨ scale = 2) (hy : y1 ≤ y2) (hx : x1 ≤ x2) :
    allocH y1 y2 scale = (heightTiles y1 y2 : ℤ) * scale * tstep ∧
    allocW x1 x2 scale = (widthTiles x1 x2 : ℤ) * scale * tstep ∧
    (heightTiles y1 y2 : ℤ) = y2 / tstep - y1 / tstep + 1 ∧
    (widthTiles x1 x2 : ℤ) = x2 / tstep - x1 / tstep + 1 ∧
    croppedH y1 y2 scale false =
      allocH y1 y2 scale - scale * (y1 % tstep) - scale * (tstep - y2 % tstep) ∧
    croppedW x1 x2 scale false =
      allocW x1 x2 scale - scale * (x1 % tstep) - scale * (tstep - x2 % tstep) ∧
    croppedH y1 y2 scale true = allocH y1 y2 scale ∧
    croppedW x1 x2 scale true = allocW x1 x2 scale := by
  refine ⟨by unfold allocH; ring, by unfold allocW; ring, ?_, ?_, ?_, ?_, rfl, rfl⟩
  · unfold heightTiles tileOf
    simp only [tstep_eq]
    omega
  · unfold widthTiles tileOf
    simp only [tstep_eq]
    omega
  · rcases hsc with rfl | rfl <;>
    · unfold croppedH pyNegSliceLen allocH heightTiles tileOf
      simp only [tstep_eq]
      rw [if_neg (by omega)]
      omega
  · rcases hsc with rfl | rfl <;>
    · unfold croppedW pyNegSliceLen allocW widthTiles tileOf
      simp only [tstep_eq]
      rw [if_neg (by omega)]
      omega

theorem claimC5_alloc_and_crop_witness :
    croppedH 0 88 1 false =
      allocH 0 88 1 - 1 * (0 % tstep) - 1 * (tstep - 88 % tstep) ∧
    (heightTiles 0 88 : ℤ) = 88 / tstep - 0 / tstep + 1 :=
  ⟨(claimC5_alloc_and_crop 0 0 88 88 1 (Or.inl rfl) (by norm_num)
      (by norm_num)).2.2.2.2.1,
   (claimC5_alloc_and_crop 0 0 88 88 1 (Or.inl rfl) (by norm_num)
      (by norm_num)).2.2.1⟩
/-! ## get_image bounding-box derivation -/

/-- A Python dict of numeric entries as read by get_image; a missing key
    models a KeyError. -/
def PyDict := String → Option ℚ

/-- The bounding-box derivation of get_image.  The pixel branch reads the x/y
    keys of the two pixel dicts, sorts each axis and inverts the projection;
    the latlon branch — exactly as written in the source — subscripts
    pixel_coordinates (not latlon_coordinates), which is None whenever that
    branch is reached, so the bind on pixel? yields none (the TypeError of
    subscripting None).  none models a raised exception; the result is
    (north, west, south, east). -/
def get_image_box (mercYinv : ℚ → ℚ) (zoom : ℕ)
    (pixel? latlon? : Option (PyDict × PyDict)) : Option (ℚ × ℚ × ℚ × ℚ) :=
  match pixel? with
  | some pc => do
      let xa ← pc.1 "x"
      let xb ← pc.2 "x"
      let ya ← pc.1 "y"
      let yb ← pc.2 "y"
      let nw := pixelcoord_to_latlon mercYinv (min ya yb) (min xa xb) zoom
      let se := pixelcoord_to_latlon mercYinv (max ya yb) (max xa xb) zoom
      some (nw.1, nw.2, se.1, se.2)
  | none =>
    match latlon? with
    | some _ => do
        let pc ← pixel?
        let lona ← pc.1 "lon"
        let lonb ← pc.2 "lon"
        let lata ← pc.1 "lat"
        let latb ← pc.2 "lat"
        some (max lata latb, min lona lonb, min lata latb, max lona lonb)
    | none => none

/-- C8 is right about the intent and the code is wrong: called with latlon
    coordinates and no pixel coordinates, the source's latlon branch reads
    pixel_coordinates[0] and pixel_coordinates[1] — the None argument — so it
    raises TypeError (modelled: no box) instead of deriving south/north and
    west/east from the latlon argument's own latitudes and longitudes.  Here
    at a concrete latlon input ((lat 1, lon 0), (lat 0, lon 1)). -/
theorem claimC8_get_image_latlon_reads_pixel_arg :
    get_image_box idQ 10 none
      (some ((fun s => if s = "lat" then some 1 else
                if s = "lon" then some 0 else none),
             (fun s => if s = "lat" then some 0 else
                if s = "lon" then some 1 else none))) = none := rfl

/-! ## The nudge loop of pixelcoord_to_latlon_secure has no iteration cap -/

theorem fixLat_const_zero_diverges (zoom : ℕ) :
    ∀ (fuel : ℕ) (lat lon : ℚ),
      fixLat (fun _ => 0) fuel zoom 1 lat lon = none := by
  intro fuel
  induction fuel with
  | zero => intro lat lon; rfl
  | succ n ih =>
    intro lat lon
    have hy2 : (latlon_to_pixelcoord (fun _ => 0) lat lon zoom).1 = 0 := by
      simp [latlon_to_pixelcoord, latlon_to_webmercator_uniform, ratTrunc]
    rw [fixLat, hy2]
    norm_num
    exact ih _ _

theorem secure_const_zero_diverges :
    ∀ fuel : ℕ,
      pixelcoord_to_latlon_secure (fun _ => 0) (fun _ => 0) fuel 1 0 0 = none := by
  intro fuel
  unfold pixelcoord_to_latlon_secure
  rw [fixLat_const_zero_diverges 0 fuel _ _]
  rfl

/-- C9 (amended): pixelcoord_to_latlon_secure bounds nothing: its nudge
    loops have no iteration counter or cap, and no cap-exceeded error exists.
    Modelled with fuel, for every fuel bound there is an instantiation of the
    abstracted projection under which the latitude loop is still running when
    the fuel runs out — with the Mercator y-direction constantly 0 and goal
    row 1 the re-projection returns row 0 forever, the one-pixel assertion
    holds at every iteration, and no amount of fuel makes the call return —
    while the routine's only loud failure is the AssertionError raised when a
    discrepancy exceeds one pixel (second conjunct: with the y-direction
    constantly 1 the first re-projection is off by 256 rows and the loop
    raises at once, at any fuel). -/
theorem claimC9_secure_unbounded :
    (∀ fuel : ℕ,
      pixelcoord_to_latlon_secure (fun _ => 0) (fun _ => 0) fuel 1 0 0 = none) ∧
    (∀ (fuel : ℕ) (lat lon : ℚ),
      fixLat (fun _ => 1) (fuel + 1) 0 5 lat lon = some PyResult.assertErr) := by
  refine ⟨secure_const_zero_diverges, ?_⟩
  intro fuel lat lon
  have hy2 : (latlon_to_pixelcoord (fun _ => 1) lat lon 0).1 = 256 := by
    simp [latlon_to_pixelcoord, latlon_to_webmercator_uniform, ratTrunc,
      pixelcount]
  rw [fixLat, hy2]
  norm_num

/-- C9 as frozen is refuted: the claim says the secure-rounding routine caps
    its nudge-and-retry iteration and fails loudly with a distinct fatal
    error when the cap is exceeded.  The routine contains no such cap: at the
    concrete pixel (1, 0), zoom 0, with the abstracted Mercator y-direction
    instantiated to the constant-zero function, 1000 iterations of the loop
    terminate neither normally nor with any error — the call is still
    looping, and no distinct cap-exceeded failure exists anywhere in its
    outcomes. -/
theorem claimC9_secure_unbounded_counterexample :
    pixelcoord_to_latlon_secure (fun _ => 0) (fun _ => 0) 1000 1 0 0 = none :=
  secure_const_zero_diverges 1000
end GMaps
